import Mathlib

/-!
Verification of the Monkey interpreter front-end (jamesroutley/monkey).

Shallow embedding of:
- the `token` package (embedded in the repository sources),
- the tokenizer (absent from the sources; modelled from the spec, §4.1),
- the `ast` package (ast/ast.go),
- the `parser` package (parser/parser.go), fuelled where the Go code loops,
- the `object`/`evaluator` packages (absent from the sources; modelled from
  the spec, §3/§4.3).
-/

namespace token

/-- token package: `type TokenType string`. -/
abbrev TokenType := String

/-- token package: `type Token struct { Type TokenType; Literal string }`. -/
structure Token where
  type : TokenType
  literal : String
deriving Repr, DecidableEq

def ILLEGAL : TokenType := "ILLEGAL"
def EOF : TokenType := "EOF"
def IDENT : TokenType := "IDENT"
def INT : TokenType := "INT"
def ASSIGN : TokenType := "="
def PLUS : TokenType := "+"
def MINUS : TokenType := "-"
def BANG : TokenType := "!"
def ASTERISK : TokenType := "*"
def SLASH : TokenType := "/"
def LT : TokenType := "<"
def GT : TokenType := ">"
def EQ : TokenType := "=="
def NOT_EQ : TokenType := "!="
def COMMA : TokenType := ","
def SEMICOLON : TokenType := ";"
def LPAREN : TokenType := "("
def RPAREN : TokenType := ")"

/-- Source: `LBRACE = "}"` — the repository assigns the right-brace string
to the left-brace constant (token package, Token Types const block). -/
def LBRACE : TokenType := "\x7d"

/-- Source: `RBRACE = "}"`. -/
def RBRACE : TokenType := "\x7d"

def FUNCTION : TokenType := "FUNCTION"
def LET : TokenType := "LET"
def TRUE : TokenType := "TRUE"
def FALSE : TokenType := "FALSE"
def IF : TokenType := "IF"
def ELSE : TokenType := "ELSE"
def RETURN : TokenType := "RETURN"

/-- token package: `LookupIdent` consults the `keywords` map, falling back
to `IDENT`. -/
def LookupIdent (ident : String) : TokenType :=
  if ident = "fn" then FUNCTION
  else if ident = "let" then LET
  else if ident = "true" then TRUE
  else if ident = "false" then FALSE
  else if ident = "if" then IF
  else if ident = "else" then ELSE
  else if ident = "return" then RETURN
  else IDENT

end token

namespace lexer

/-- Modelled from the spec: the tokenizer (`lexer` package) is not among the
provided sources; §4.1 of the spec defines it.  Whitespace characters
skipped by the tokenizer: space, tab, newline, carriage return. -/
def isWhitespace (c : Char) : Bool :=
  c.toNat = 32 || c.toNat = 9 || c.toNat = 10 || c.toNat = 13

/-- Modelled from the spec: identifier start characters, `[A-Za-z_]`
(code points 65–90, 97–122, and 95 for the underscore). -/
def isLetter (c : Char) : Bool :=
  (65 ≤ c.toNat && c.toNat ≤ 90) || (97 ≤ c.toNat && c.toNat ≤ 122) || c.toNat = 95

/-- Modelled from the spec: ASCII digits `[0-9]`. -/
def isDigit (c : Char) : Bool :=
  48 ≤ c.toNat && c.toNat ≤ 57

/-- Modelled from the spec: identifier continuation characters,
`[A-Za-z0-9_]`. -/
def isIdentChar (c : Char) : Bool :=
  isLetter c || isDigit c

def lbraceChar : Char := Char.ofNat 123
def rbraceChar : Char := Char.ofNat 125

def eofTok : token.Token := ⟨token.EOF, ""⟩

/-- Modelled from the spec: `next_token` (§4.1).  Consumes one token from the
remaining characters and returns it with the rest of the input.  Two-character
operators `==`/`!=` use one character of lookahead; identifiers are looked up
in the keyword table; an unrecognized byte yields an ILLEGAL token; at
end-of-input an EOF token is returned (repeatedly, by the `[]` case). -/
def nextToken (input : List Char) : token.Token × List Char :=
  match input.dropWhile isWhitespace with
  | [] => (eofTok, [])
  | c :: rest =>
    if c = '=' then
      match rest with
      | '=' :: r2 => (⟨token.EQ, "=="⟩, r2)
      | _ => (⟨token.ASSIGN, "="⟩, rest)
    else if c = '!' then
      match rest with
      | '=' :: r2 => (⟨token.NOT_EQ, "!="⟩, r2)
      | _ => (⟨token.BANG, "!"⟩, rest)
    else if c = '+' then (⟨token.PLUS, "+"⟩, rest)
    else if c = '-' then (⟨token.MINUS, "-"⟩, rest)
    else if c = '*' then (⟨token.ASTERISK, "*"⟩, rest)
    else if c = '/' then (⟨token.SLASH, "/"⟩, rest)
    else if c = '<' then (⟨token.LT, "<"⟩, rest)
    else if c = '>' then (⟨token.GT, ">"⟩, rest)
    else if c = ',' then (⟨token.COMMA, ","⟩, rest)
    else if c = ';' then (⟨token.SEMICOLON, ";"⟩, rest)
    else if c = '(' then (⟨token.LPAREN, "("⟩, rest)
    else if c = ')' then (⟨token.RPAREN, ")"⟩, rest)
    else if c = lbraceChar then (⟨token.LBRACE, String.mk [c]⟩, rest)
    else if c = rbraceChar then (⟨token.RBRACE, String.mk [c]⟩, rest)
    else if isLetter c then
      let lit : List Char := c :: rest.takeWhile isIdentChar
      (⟨token.LookupIdent ⟨lit⟩, ⟨lit⟩⟩, rest.dropWhile isIdentChar)
    else if isDigit c then
      let lit : List Char := c :: rest.takeWhile isDigit
      (⟨token.INT, ⟨lit⟩⟩, rest.dropWhile isDigit)
    else (⟨token.ILLEGAL, String.mk [c]⟩, rest)

/-- Fuelled repetition of `nextToken`; the fuel bounds the number of emitted
tokens.  The token stream ends with the first EOF token (after which the Go
lexer would keep returning EOF forever; the parser model pads with EOF). -/
def lexAllF : Nat → List Char → List token.Token
  | 0, _ => []
  | fuel + 1, input =>
    let r := nextToken input
    if r.1.type = token.EOF then [r.1] else r.1 :: lexAllF fuel r.2

/-- Tokenize a whole string.  `length + 1` units of fuel always suffice:
every non-EOF token consumes at least one character. -/
def lex (s : String) : List token.Token :=
  lexAllF (s.data.length + 1) s.data

end lexer

namespace ast

/-- ast/ast.go: `Identifier` (`Token`, `Value`). -/
structure Identifier where
  tok : token.Token
  value : String
deriving Repr, DecidableEq

/-- ast/ast.go: the expression variants the parser constructs, plus the
`Boolean` and `InfixExpression` variants.  (`IfExpression`,
`FunctionLiteral` and `CallExpression` from ast.go are never constructed by
parser.go and are not referenced by any claim; they are omitted.)
`nilExpr` models a nil Go `ast.Expression` interface value (e.g. the nil
returned by `parseExpression` when no prefix handler exists, stored
verbatim in `PrefixExpression.Right` or `ExpressionStatement.Expression`). -/
inductive Expression where
  | nilExpr
  | identifier (id : Identifier)
  | integerLiteral (tok : token.Token) (value : Int)
  | boolean (tok : token.Token) (value : Bool)
  | prefixExpression (tok : token.Token) (operator : String) (right : Expression)
  | infixExpression (tok : token.Token) (left : Expression) (operator : String)
      (right : Expression)
deriving Repr, DecidableEq

/-- ast/ast.go: statement variants (`BlockStatement` is unreachable from
parser.go and unreferenced by the claims; omitted).  `LetStatement.Name`
is a nilable pointer, hence an `Option`; the nilable expression-interface
fields use `Expression.nilExpr` for Go nil. -/
inductive Statement where
  | letStatement (tok : token.Token) (name : Option Identifier) (value : Expression)
  | returnStatement (tok : token.Token) (returnValue : Expression)
  | expressionStatement (tok : token.Token) (expression : Expression)
deriving Repr, DecidableEq

/-- ast/ast.go: `Program`.  Go's `Statements []ast.Statement` holds interface
values; a typed-nil `*ast.LetStatement` stored in it is modelled as `none`
(see `parser.parseStatement`: `return p.parseLetStatement()` wraps a nil
pointer in a non-nil interface). -/
structure Program where
  statements : List (Option Statement)
deriving Repr, DecidableEq

/-- ast/ast.go `Expression.String()`.  Result is `none` where the Go code
dereferences a nil interface and panics (`PrefixExpression.String` and
`InfixExpression.String` call `.String()` on their children
unconditionally, so a nil child is a panic). -/
def exprString : Expression → Option String
  | .nilExpr => none
  | .identifier id => some id.value
  | .integerLiteral tok _ => some tok.literal
  | .boolean tok _ => some tok.literal
  | .prefixExpression _ operator right =>
    match exprString right with
    | none => none
    | some r => some ("(" ++ operator ++ r ++ ")")
  | .infixExpression _ left operator right =>
    match exprString left, exprString right with
    | some l, some r => some ("(" ++ l ++ " " ++ operator ++ " " ++ r ++ ")")
    | _, _ => none

/-- ast/ast.go `Statement.String()` for each variant.  The nil checks
(`if ls.Value != nil`, `if es.Expression != nil`) are the `nilExpr`
matches; `none` models the panic on a nil `Name` dereference in
`LetStatement.String`. -/
def stmtString : Statement → Option String
  | .letStatement tok name value =>
    match name with
    | none => none
    | some id =>
      match value with
      | .nilExpr => some (tok.literal ++ " " ++ id.value ++ " = " ++ ";")
      | v =>
        match exprString v with
        | none => none
        | some vs => some (tok.literal ++ " " ++ id.value ++ " = " ++ vs ++ ";")
  | .returnStatement tok returnValue =>
    match returnValue with
    | .nilExpr => some (tok.literal ++ " " ++ ";")
    | v =>
      match exprString v with
      | none => none
      | some vs => some (tok.literal ++ " " ++ vs ++ ";")
  | .expressionStatement _ expression =>
    match expression with
    | .nilExpr => some ""
    | e => exprString e

/-- ast/ast.go `Program.String()`: concatenation of the statements'
renderings; `none` if any statement entry is a typed-nil (Go panics). -/
def programString (p : Program) : Option String :=
  p.statements.foldr
    (fun os acc =>
      match os.bind stmtString, acc with
      | some s, some t => some (s ++ t)
      | _, _ => none)
    (some "")

end ast

namespace parser

/-- strconv.ParseInt digit values (hex covers all smaller bases). -/
def digitVal (c : Char) : Option Nat :=
  if 48 ≤ c.toNat ∧ c.toNat ≤ 57 then some (c.toNat - 48)
  else if 97 ≤ c.toNat ∧ c.toNat ≤ 102 then some (c.toNat - 87)
  else if 65 ≤ c.toNat ∧ c.toNat ≤ 70 then some (c.toNat - 55)
  else none

/-- Value of a digit string in the given base; `none` on an empty string or
an out-of-range digit. -/
def digitsValIn (base : Nat) : List Char → Option Nat
  | [] => none
  | cs => go cs 0
where
  go : List Char → Nat → Option Nat
    | [], acc => some acc
    | c :: rest, acc =>
      match digitVal c with
      | some d => if d < base then go rest (base * acc + d) else none
      | none => none

/-- Go's `strconv.ParseInt(s, 0, 64)` as used by `parseIntegerLiteral`
(parser.go): optional sign, then base detection for base 0 — `0x`/`0X` hex,
`0o`/`0O` octal, `0b`/`0B` binary, a leading `0` followed by more characters
is legacy octal, otherwise decimal — then a 64-bit signed range check.
(Go additionally permits underscores between digits when base is 0; the
tokenizer only ever produces pure digit strings, so that rule is omitted.) -/
def parseInt0_64 (s : String) : Option Int :=
  let step1 : Bool × List Char :=
    match s.data with
    | [] => (false, [])
    | c :: r =>
      if c = '+' then (false, r) else if c = '-' then (true, r) else (false, c :: r)
  let neg := step1.1
  let step2 : Nat × List Char :=
    match step1.2 with
    | c :: c2 :: r =>
      if c = '0' then
        if c2 = 'x' ∨ c2 = 'X' then (16, r)
        else if c2 = 'o' ∨ c2 = 'O' then (8, r)
        else if c2 = 'b' ∨ c2 = 'B' then (2, r)
        else (8, c2 :: r)
      else (10, c :: c2 :: r)
    | r => (10, r)
  let base := step2.1
  let ds := step2.2
  match digitsValIn base ds with
  | none => none
  | some v =>
    if neg then if v ≤ 2 ^ 63 then some (-(v : Int)) else none
    else if v ≤ 2 ^ 63 - 1 then some (v : Int) else none

/-- parser.go precedence constants (`iota` starting the block at 1). -/
def LOWEST : Nat := 1
def EQUALS : Nat := 2
def LESSGREATER : Nat := 3
def SUM : Nat := 4
def PRODUCT : Nat := 5
def PREFIX : Nat := 6
def CALL : Nat := 7

/-- parser.go `Parser` state: current token, one-token lookahead, the not yet
consumed lexer output, and the accumulated errors.  The Go lexer returns EOF
tokens forever once exhausted; `nextToken` therefore pads with EOF when
`rest` is empty. -/
structure PState where
  curToken : token.Token
  peekToken : token.Token
  rest : List token.Token
  errors : List String
deriving Repr, DecidableEq

/-- parser.go `nextToken`: `curToken ← peekToken`, `peekToken ← l.NextToken()`. -/
def nextToken (p : PState) : PState :=
  { curToken := p.peekToken
    peekToken := p.rest.headD lexer.eofTok
    rest := p.rest.tail
    errors := p.errors }

/-- parser.go `New`: zero-valued `curToken`/`peekToken`, then two `nextToken`
calls so both are populated. -/
def newParser (toks : List token.Token) : PState :=
  nextToken (nextToken { curToken := ⟨"", ""⟩, peekToken := ⟨"", ""⟩, rest := toks, errors := [] })

/-- parser.go `curTokenIs`. -/
def curTokenIs (t : token.TokenType) (p : PState) : Bool :=
  p.curToken.type = t

/-- parser.go `peekTokenIs`. -/
def peekTokenIs (t : token.TokenType) (p : PState) : Bool :=
  p.peekToken.type = t

/-- parser.go `peekError`: `"expected next token to be %s, got %s instead"`. -/
def peekError (t : token.TokenType) (p : PState) : PState :=
  { p with errors :=
      p.errors ++ ["expected next token to be " ++ t ++ ", got " ++ p.peekToken.type ++ " instead"] }

/-- parser.go `expectPeek`: advance on a match, otherwise record a peek
error and report failure. -/
def expectPeek (t : token.TokenType) (p : PState) : Bool × PState :=
  if peekTokenIs t p then (true, nextToken p)
  else (false, peekError t p)

/-- parser.go `noPrefixParseFnError`: `"no prefix parse function for %s found"`. -/
def noPrefixParseFnError (t : token.TokenType) (p : PState) : PState :=
  { p with errors := p.errors ++ ["no prefix parse function for " ++ t ++ " found"] }

/-- The prefix handlers registered by `New` (parser.go): identifiers,
integer literals, and `parsePrefixExpression` for `!` and `-`.  The map
values are tags standing for the registered methods. -/
inductive PrefixFnTag where
  | identifierFn
  | integerLiteralFn
  | prefixExpressionFn
deriving Repr, DecidableEq

/-- parser.go `New`: contents of `p.prefixParseFns` after the four
`registerPrefix` calls. -/
def prefixParseFns (t : token.TokenType) : Option PrefixFnTag :=
  if t = token.IDENT then some .identifierFn
  else if t = token.INT then some .integerLiteralFn
  else if t = token.BANG then some .prefixExpressionFn
  else if t = token.MINUS then some .prefixExpressionFn
  else none

/-- parser.go `New` never initialises or populates `p.infixParseFns` (
`registerInfix` is never called); lookups in the nil map always miss. -/
def infixParseFns (_ : token.TokenType) : Option Empty :=
  none

/-- parser.go `parseIdentifier`. -/
def parseIdentifier (p : PState) : ast.Expression × PState :=
  (.identifier ⟨p.curToken, p.curToken.literal⟩, p)

/-- parser.go `parseIntegerLiteral`: `strconv.ParseInt(lit, 0, 64)`; on
error, record `"could not parse %q as integer"` and return nil. -/
def parseIntegerLiteral (p : PState) : ast.Expression × PState :=
  match parseInt0_64 p.curToken.literal with
  | some v => (.integerLiteral p.curToken v, p)
  | none =>
    (.nilExpr,
     { p with errors := p.errors ++ ["could not parse \"" ++ p.curToken.literal ++ "\" as integer"] })

mutual

/-- The `for p.curToken.Type != token.EOF` loop of parser.go `ParseProgram`.
A fuel unit is spent per iteration and per statement-level call; `none`
means the fuel ran out, i.e. the Go code would still be running.  The
`if stmt != nil` test in ParseProgram is on the interface value returned by
`parseStatement` (the outer `Option` below); a nil `*ast.LetStatement`
wrapped in a non-nil interface (the inner `Option`) passes that test and is
appended. -/
def parseProgramLoop : Nat → PState → List (Option ast.Statement) →
    Option (List (Option ast.Statement) × PState)
  | 0, _, _ => none
  | fuel + 1, p, acc =>
    if p.curToken.type = token.EOF then some (acc, p)
    else
      match parseStatement fuel p with
      | none => none
      | some (iface, p') =>
        let acc' := match iface with
          | none => acc
          | some inner => acc ++ [inner]
        parseProgramLoop fuel (nextToken p') acc'

/-- parser.go `parseStatement`: dispatch on the current token type.  The
result's outer `Option` is the Go interface value (`none` = nil interface —
unreachable here, every branch wraps a typed pointer), the next `Option` is
pointer nil-ness. -/
def parseStatement : Nat → PState → Option (Option (Option ast.Statement) × PState)
  | 0, _ => none
  | fuel + 1, p =>
    if p.curToken.type = token.LET then
      match parseLetStatement fuel p with
      | none => none
      | some (stmt, p') => some (some stmt, p')
    else if p.curToken.type = token.RETURN then
      match parseReturnStatement fuel p with
      | none => none
      | some (stmt, p') => some (some stmt, p')
    else
      match parseExpressionStatement fuel p with
      | none => none
      | some (stmt, p') => some (some stmt, p')

/-- parser.go `parseLetStatement`: `LET`, expect `IDENT`, expect `=`, then
(`TODO` in the source) skip tokens until a semicolon is current; the
statement's `Value` is never assigned (nil). -/
def parseLetStatement : Nat → PState → Option (Option ast.Statement × PState)
  | 0, _ => none
  | fuel + 1, p =>
    let letTok := p.curToken
    match expectPeek token.IDENT p with
    | (false, p') => some (none, p')
    | (true, p') =>
      let name : ast.Identifier := ⟨p'.curToken, p'.curToken.literal⟩
      match expectPeek token.ASSIGN p' with
      | (false, p2) => some (none, p2)
      | (true, p2) =>
        match skipToSemicolon fuel p2 with
        | none => none
        | some p3 => some (some (.letStatement letTok (some name) .nilExpr), p3)

/-- parser.go `parseReturnStatement`: advance once, then (`TODO` in the
source) skip until a semicolon is current; `ReturnValue` is never assigned. -/
def parseReturnStatement : Nat → PState → Option (Option ast.Statement × PState)
  | 0, _ => none
  | fuel + 1, p =>
    let retTok := p.curToken
    match skipToSemicolon fuel (nextToken p) with
    | none => none
    | some p' => some (some (.returnStatement retTok .nilExpr), p')

/-- The `for !p.curTokenIs(token.SEMICOLON) { p.nextToken() }` loop shared
by `parseLetStatement` and `parseReturnStatement`.  `none` means the fuel
ran out: with no semicolon left in the stream the Go loop never exits,
because the exhausted lexer keeps producing EOF tokens. -/
def skipToSemicolon : Nat → PState → Option PState
  | 0, _ => none
  | fuel + 1, p =>
    if curTokenIs token.SEMICOLON p then some p
    else skipToSemicolon fuel (nextToken p)

/-- parser.go `parseExpressionStatement`: parse one expression with LOWEST
precedence, then consume an optional trailing semicolon. -/
def parseExpressionStatement : Nat → PState → Option (Option ast.Statement × PState)
  | 0, _ => none
  | fuel + 1, p =>
    let stmtTok := p.curToken
    match parseExpression fuel LOWEST p with
    | none => none
    | some (expr, p') =>
      let p2 := if peekTokenIs token.SEMICOLON p' then nextToken p' else p'
      some (some (.expressionStatement stmtTok expr), p2)

/-- parser.go `parseExpression`: look up the prefix handler for the current
token; if none is registered, record the error and return nil; otherwise
invoke it and return its result.  (The `precidence` parameter is accepted
and ignored — there is no infix loop in this revision.) -/
def parseExpression : Nat → Nat → PState → Option (ast.Expression × PState)
  | 0, _, _ => none
  | fuel + 1, _precidence, p =>
    match prefixParseFns p.curToken.type with
    | none => some (.nilExpr, noPrefixParseFnError p.curToken.type p)
    | some .identifierFn => some (parseIdentifier p)
    | some .integerLiteralFn => some (parseIntegerLiteral p)
    | some .prefixExpressionFn => parsePrefixExpression fuel p

/-- parser.go `parsePrefixExpression`: capture the operator token, advance,
parse the operand with PREFIX precedence, store it in `Right` (possibly
nil). -/
def parsePrefixExpression : Nat → PState → Option (ast.Expression × PState)
  | 0, _ => none
  | fuel + 1, p =>
    let opTok := p.curToken
    match parseExpression fuel PREFIX (nextToken p) with
    | none => none
    | some (right, p') => some (.prefixExpression opTok opTok.literal right, p')

end

/-- parser.go `ParseProgram`, fuelled; `none` = the Go code does not finish
within `fuel` steps. -/
def ParseProgram (fuel : Nat) (p : PState) : Option (ast.Program × PState) :=
  match parseProgramLoop fuel p [] with
  | none => none
  | some (stmts, p') => some (⟨stmts⟩, p')

/-- End-to-end: tokenize `s` (spec-modelled lexer), build a parser, run
`ParseProgram`; result is the Program and the accumulated errors. -/
def parseWith (fuel : Nat) (s : String) : Option (ast.Program × List String) :=
  match ParseProgram fuel (newParser (lexer.lex s)) with
  | none => none
  | some (prog, p) => some (prog, p.errors)

end parser

namespace object

/-- Modelled from the spec: the Value model (§3).  The `object` package is
not among the provided sources.  Variants: 64-bit Integer, Boolean, the
"no value" sentinel, the "returning value" wrapper used to unwind blocks,
and the first-class Error value.  (The Function variant is omitted: this
parser never produces a `FunctionLiteral` node, so no claim can construct
one.) -/
inductive Object where
  | integer (value : Int)
  | boolean (value : Bool)
  | nullValue
  | returnValue (value : Object)
  | error (message : String)
deriving Repr, DecidableEq

/-- Truncate to the 64-bit signed range (Go `int64` wrap-around). -/
def wrap64 (n : Int) : Int :=
  (n + 2 ^ 63) % 2 ^ 64 - 2 ^ 63

end object

namespace evaluator

/-- Modelled from the spec: Environment (§3) — a mapping from names to
Values plus an optional enclosing Environment; the `object`/`environment`
sources are absent.  The two constructors are `new_root` / `new_enclosed`
shapes; lookup walks outward until found or exhausted. -/
inductive Environment where
  | root (store : List (String × object.Object))
  | enclosed (store : List (String × object.Object)) (outer : Environment)
deriving Repr

/-- Modelled from the spec: Environment lookup through the `outer` chain. -/
def Environment.get : Environment → String → Option object.Object
  | .root store, name => store.lookup name
  | .enclosed store outer, name =>
    match store.lookup name with
    | some v => some v
    | none => outer.get name

/-- Modelled from the spec: defining a binding in the current Environment
(shadowing, not assignment through the chain). -/
def Environment.set : Environment → String → object.Object → Environment
  | .root store, name, v => .root ((name, v) :: store)
  | .enclosed store outer, name, v => .enclosed ((name, v) :: store) outer

/-- Modelled from the spec: truthiness — everything is truthy except
Boolean false and "no value" (§4.3, glossary). -/
def truthy : object.Object → Bool
  | .boolean false => false
  | .nullValue => false
  | _ => true

def isError : object.Object → Bool
  | .error _ => true
  | _ => false

/-- Modelled from the spec: `!` coerces via truthiness and negates; `-`
requires an Integer operand, anything else is a type error (§4.3). -/
def evalPrefixOp (operator : String) (v : object.Object) : object.Object :=
  if operator = "!" then .boolean (!truthy v)
  else if operator = "-" then
    match v with
    | .integer n => .integer (object.wrap64 (-n))
    | _ => .error ("unknown operator: -" ++ "operand")
  else .error ("unknown operator: " ++ operator)

/-- Modelled from the spec: infix evaluation — Integer pairs get the
arithmetic/relational/equality operators (64-bit wrap-around arithmetic,
truncated division as in Go); Boolean pairs only `==`/`!=`; every other
combination is a type error (§4.3). -/
def evalInfixOp (operator : String) (l r : object.Object) : object.Object :=
  match l, r with
  | .integer a, .integer b =>
    if operator = "+" then .integer (object.wrap64 (a + b))
    else if operator = "-" then .integer (object.wrap64 (a - b))
    else if operator = "*" then .integer (object.wrap64 (a * b))
    else if operator = "/" then .integer (object.wrap64 (Int.tdiv a b))
    else if operator = "<" then .boolean (a < b)
    else if operator = ">" then .boolean (b < a)
    else if operator = "==" then .boolean (a = b)
    else if operator = "!=" then .boolean (a ≠ b)
    else .error ("unknown operator: " ++ operator)
  | .boolean a, .boolean b =>
    if operator = "==" then .boolean (a = b)
    else if operator = "!=" then .boolean (a ≠ b)
    else .error ("unknown operator: " ++ operator)
  | _, _ => .error ("type mismatch: " ++ operator)

/-- Modelled from the spec: expression evaluation (§4.3).  A nil child node
(never produced by a complete parse) is modelled as an Error value. -/
def evalExpr : ast.Expression → Environment → object.Object
  | .nilExpr, _ => .error "nil node"
  | .identifier id, env =>
    match env.get id.value with
    | some v => v
    | none => .error ("identifier not found: " ++ id.value)
  | .integerLiteral _ v, _ => .integer v
  | .boolean _ b, _ => .boolean b
  | .prefixExpression _ operator right, env =>
    let r := evalExpr right env
    if isError r then r else evalPrefixOp operator r
  | .infixExpression _ left operator right, env =>
    let l := evalExpr left env
    if isError l then l
    else
      let r := evalExpr right env
      if isError r then r else evalInfixOp operator l r

/-- Modelled from the spec: statement evaluation (§4.3).  A let statement
evaluates its value expression and defines the binding in the current
Environment (its own result is "no value"); a return statement wraps its
value in the "returning" tag; an expression statement evaluates its
expression.  Errors propagate without binding or wrapping. -/
def evalStmt : ast.Statement → Environment → object.Object × Environment
  | .letStatement _ name value, env =>
    let v := evalExpr value env
    if isError v then (v, env)
    else
      match name with
      | none => (.error "nil identifier", env)
      | some id => (.nullValue, env.set id.value v)
  | .returnStatement _ returnValue, env =>
    let v := evalExpr returnValue env
    if isError v then (v, env) else (.returnValue v, env)
  | .expressionStatement _ expression, env => (evalExpr expression env, env)

/-- Modelled from the spec: program evaluation — statements in order, a
"returning value" unwraps and stops, an Error stops, otherwise the value is
the last statement's value ("no value" for an empty program).  A typed-nil
statement entry (which would make the Go evaluator panic) is an Error. -/
def evalStmts : List (Option ast.Statement) → Environment → object.Object × Environment
  | [], env => (.nullValue, env)
  | os :: rest, env =>
    match os with
    | none => (.error "nil statement", env)
    | some s =>
      let (v, env') := evalStmt s env
      match v with
      | .returnValue rv => (rv, env')
      | .error m => (.error m, env')
      | v' =>
        match rest with
        | [] => (v', env')
        | _ => evalStmts rest env'

/-- Modelled from the spec: `Eval(node: Program, environment: Environment)
→ Value` (§4.3/§6) — the evaluator package is absent from the sources; its
in-repo callers (the REPL and the evaluator test) invoke `Eval(program)`
with no environment argument. -/
def Eval (program : ast.Program) (env : Environment) : object.Object × Environment :=
  evalStmts program.statements env

/-- Pipeline used by the claims: tokenize, parse, then evaluate the Program
in a fresh root Environment (as the evaluator test's `testEval` does —
parse errors are not consulted). -/
def evalString (fuel : Nat) (s : String) : Option object.Object :=
  match parser.parseWith fuel s with
  | none => none
  | some (prog, _) => some (Eval prog (.root [])).1

end evaluator

namespace lexer

/-- A string the spec's tokenizer would emit as a single identifier token:
nonempty, a letter or underscore first, identifier characters after. -/
def validIdent (s : String) : Bool :=
  match s.data with
  | [] => false
  | c :: cs => isLetter c && cs.all isIdentChar

end lexer

namespace parser

/-- Statement shapes producible by this revision's `parseLetStatement` /
`parseReturnStatement` (used to state the amended round-trip claim): a let
statement carries the `LET` token with literal "let", a name whose token is
a lexer-style non-keyword identifier, and no value; a return statement
carries the `RETURN` token with literal "return" and no value. -/
def wfLetRet : Option ast.Statement → Bool
  | some (.letStatement tok name value) =>
    match name, value with
    | some id, .nilExpr =>
      tok == ⟨token.LET, "let"⟩ && id.tok == ⟨token.IDENT, id.value⟩ &&
        lexer.validIdent id.value && token.LookupIdent id.value == token.IDENT
    | _, _ => false
  | some (.returnStatement tok value) =>
    match value with
    | .nilExpr => tok == ⟨token.RETURN, "return"⟩
    | _ => false
  | _ => false

/-- The token sequence the tokenizer produces for the rendering of a
well-formed let/return statement. -/
def stmtTokens : ast.Statement → List token.Token
  | .letStatement _ name _ =>
    [⟨token.LET, "let"⟩, ⟨token.IDENT, (name.map (fun id => id.value)).getD ""⟩,
     ⟨token.ASSIGN, "="⟩, ⟨token.SEMICOLON, ";"⟩]
  | .returnStatement _ _ => [⟨token.RETURN, "return"⟩, ⟨token.SEMICOLON, ";"⟩]
  | .expressionStatement _ _ => []

/-- Concatenated statement tokens of a program. -/
def progTokens : List (Option ast.Statement) → List token.Token
  | [] => []
  | os :: rest =>
    (match os with
     | some s => stmtTokens s
     | none => []) ++ progTokens rest

/-- Parser state whose current/peek tokens are the first two of `ts` (EOF
padded), mirroring `newParser` applied to `ts` but with chosen errors. -/
def stateOf (ts : List token.Token) (errs : List String) : PState :=
  { curToken := ts.headD lexer.eofTok
    peekToken := ts.tail.headD lexer.eofTok
    rest := ts.tail.tail
    errors := errs }

/-- Decimal value of a digit string. -/
def decVal (cs : List Char) : Nat :=
  cs.foldl (fun a c => 10 * a + (c.toNat - 48)) 0

end parser

/-! ## Claim theorems -/

/-- C9: the token kinds are not a genuine enumeration — the constant for
the `\x7b` delimiter (`LBRACE`) is defined as the string "\x7d", the very
value of `RBRACE`, so the two kinds coincide (evaluating the code at the
failing constants). -/
theorem c9_lbrace_equals_rbrace : token.LBRACE = token.RBRACE := rfl

/-- C7 counterexample: after construction the prefix dispatch table has no
handler for boolean literals, `(`, `if` or `fn`, and the infix dispatch
table has no handler for `+` (it is never populated at all) — refuting the
claimed coverage of every expression-starting and operator token kind. -/
theorem c7_counterexample :
    parser.prefixParseFns token.TRUE = none ∧
    parser.prefixParseFns token.FALSE = none ∧
    parser.prefixParseFns token.LPAREN = none ∧
    parser.prefixParseFns token.IF = none ∧
    parser.prefixParseFns token.FUNCTION = none ∧
    parser.infixParseFns token.PLUS = none :=
  ⟨rfl, rfl, rfl, rfl, rfl, rfl⟩

/-- C7 amended: the prefix dispatch table has handlers exactly for the
identifier, integer-literal, `!` and `-` token kinds, and the infix
dispatch table is empty for every token kind. -/
theorem c7_amended :
    (∀ t : token.TokenType,
      (parser.prefixParseFns t).isSome = true ↔
        (t = token.IDENT ∨ t = token.INT ∨ t = token.BANG ∨ t = token.MINUS)) ∧
    (∀ t : token.TokenType, parser.infixParseFns t = none) := by
  refine ⟨fun t => ?_, fun t => rfl⟩
  unfold parser.prefixParseFns
  split_ifs with h1 h2 h3 h4 <;> simp_all

/-- C1 counterexample: `parseExpression` performs no precedence climbing;
parsing "5 + 5 * 10" renders as "5510", not "(5 + (5 * 10))". -/
theorem c1_counterexample :
    (parser.parseWith 100 "5 + 5 * 10").bind (fun pr => ast.programString pr.1)
      = some "5510" ∧
    ("5510" : String) ≠ "(5 + (5 * 10))" :=
  ⟨rfl, by decide⟩

/-- C1 amended: `parseExpression` only invokes the prefix handler for the
current token and returns its result — the binding-power threshold argument
is ignored (the result is independent of it) and no infix handler is ever
consulted; consequently "5 + 5 * 10" parses as five expression statements —
the three integer literals plus one nil-expression statement for each of
the operator tokens `+` and `*`, whose missing prefix handlers each record
a "no prefix parse function" error — and the Program renders as "5510". -/
theorem c1_amended :
    (∀ (fuel prec1 prec2 : Nat) (p : parser.PState),
      parser.parseExpression fuel prec1 p = parser.parseExpression fuel prec2 p) ∧
    parser.parseWith 100 "5 + 5 * 10"
      = some (⟨[some (.expressionStatement ⟨token.INT, "5"⟩
                  (.integerLiteral ⟨token.INT, "5"⟩ 5)),
                some (.expressionStatement ⟨token.PLUS, "+"⟩ .nilExpr),
                some (.expressionStatement ⟨token.INT, "5"⟩
                  (.integerLiteral ⟨token.INT, "5"⟩ 5)),
                some (.expressionStatement ⟨token.ASTERISK, "*"⟩ .nilExpr),
                some (.expressionStatement ⟨token.INT, "10"⟩
                  (.integerLiteral ⟨token.INT, "10"⟩ 10))]⟩,
              ["no prefix parse function for + found",
               "no prefix parse function for * found"]) ∧
    (parser.parseWith 100 "5 + 5 * 10").bind (fun pr => ast.programString pr.1)
      = some "5510" :=
  ⟨fun fuel prec1 prec2 p => by cases fuel <;> rfl, rfl, rfl⟩

/-- C3 counterexample: parsing "let x = 5; return 5;" succeeds with no
errors, yet the let statement's value field and the return statement's
value field are both the nil expression — neither holds the AST of the
`5` literal that followed. -/
theorem c3_counterexample :
    parser.parseWith 100 "let x = 5; return 5;"
      = some (⟨[some (.letStatement ⟨token.LET, "let"⟩
                  (some ⟨⟨token.IDENT, "x"⟩, "x"⟩) .nilExpr),
                some (.returnStatement ⟨token.RETURN, "return"⟩ .nilExpr)]⟩, []) ∧
    ast.Expression.nilExpr ≠ ast.Expression.integerLiteral ⟨token.INT, "5"⟩ 5 :=
  ⟨rfl, by decide⟩

/-- C3 amended: every let statement this parser returns has a nil value
field, and every return statement it returns has a nil value field — the
expression tokens are skipped (the source's TODO), never parsed or stored. -/
theorem c3_amended :
    (∀ (fuel : Nat) (p : parser.PState) (stmt : ast.Statement) (p' : parser.PState),
      parser.parseLetStatement fuel p = some (some stmt, p') →
      ∃ tok name, stmt = ast.Statement.letStatement tok name ast.Expression.nilExpr) ∧
    (∀ (fuel : Nat) (p : parser.PState) (stmt : ast.Statement) (p' : parser.PState),
      parser.parseReturnStatement fuel p = some (some stmt, p') →
      ∃ tok, stmt = ast.Statement.returnStatement tok ast.Expression.nilExpr) := by
  constructor
  · intro fuel p stmt p' h
    match fuel with
    | 0 => simp [parser.parseLetStatement] at h
    | fuel + 1 =>
      simp only [parser.parseLetStatement] at h
      rcases h1 : parser.expectPeek token.IDENT p with ⟨b1, q1⟩
      rw [h1] at h
      match b1 with
      | false => simp at h
      | true =>
        simp only at h
        rcases h2 : parser.expectPeek token.ASSIGN q1 with ⟨b2, q2⟩
        rw [h2] at h
        match b2 with
        | false => simp at h
        | true =>
          simp only at h
          rcases h3 : parser.skipToSemicolon fuel q2 with _ | q3 <;> rw [h3] at h
          · simp at h
          · simp at h
            exact ⟨_, _, h.1.symm⟩
  · intro fuel p stmt p' h
    match fuel with
    | 0 => simp [parser.parseReturnStatement] at h
    | fuel + 1 =>
      simp only [parser.parseReturnStatement] at h
      rcases h3 : parser.skipToSemicolon fuel (parser.nextToken p) with _ | q3 <;>
        rw [h3] at h
      · simp at h
      · simp at h
        exact ⟨_, h.1.symm⟩

/-- C3 amended, witness: the let statement parsed from "let x = 5;" has the
shape guaranteed by the amended claim. -/
theorem c3_amended_witness :
    ∃ tok name,
      ast.Statement.letStatement ⟨token.LET, "let"⟩
        (some ⟨⟨token.IDENT, "x"⟩, "x"⟩) ast.Expression.nilExpr
        = ast.Statement.letStatement tok name ast.Expression.nilExpr :=
  c3_amended.1 10 (parser.newParser (lexer.lex "let x = 5;")) _ _ rfl

/-- C5 counterexample: in "let x 5; let 10;" both let statements are
malformed, and neither is dropped from the returned statement sequence —
each contributes a typed-nil entry (Go wraps the nil `*ast.LetStatement` in
a non-nil `ast.Statement` interface, so ParseProgram's `stmt != nil` test
passes), leaving a 4-entry sequence `[nil, 5, nil, 10]` rather than the
claimed 2-entry one. -/
theorem c5_counterexample :
    (parser.parseWith 100 "let x 5; let 10;").map
        (fun pr => pr.1.statements.map Option.isSome)
      = some [false, true, false, true] ∧
    (parser.parseWith 100 "let x 5; let 10;").map (fun pr => pr.1.statements.length)
      = some 4 :=
  ⟨rfl, rfl⟩

/-- C5 amended: each failed `expectPeek` appends exactly one error of the
form "expected next token to be X, got Y instead" and parsing continues:
for "let x 5; let 10;" the parser records the two expectation failures in
encounter order, the malformed let statements contribute typed-nil entries
(not dropped), and the leftover `5` and `10` tokens are parsed as separate
expression statements. -/
theorem c5_amended :
    (∀ (t : token.TokenType) (p : parser.PState),
      (parser.expectPeek t p).1 = false →
      (parser.expectPeek t p).2.errors
        = p.errors ++ ["expected next token to be " ++ t ++ ", got "
            ++ p.peekToken.type ++ " instead"]) ∧
    parser.parseWith 100 "let x 5; let 10;"
      = some (⟨[none,
                some (.expressionStatement ⟨token.INT, "5"⟩
                  (.integerLiteral ⟨token.INT, "5"⟩ 5)),
                none,
                some (.expressionStatement ⟨token.INT, "10"⟩
                  (.integerLiteral ⟨token.INT, "10"⟩ 10))]⟩,
              ["expected next token to be =, got INT instead",
               "expected next token to be IDENT, got INT instead"]) := by
  constructor
  · intro t p h
    unfold parser.expectPeek at h ⊢
    by_cases hp : parser.peekTokenIs t p = true
    · simp [hp] at h
    · simp [hp, parser.peekError]
  · rfl

/-- C5 amended, witness: the general `expectPeek` clause applied to the
concrete failing expectation of "let x 5;" (expecting `=`, peeking INT). -/
theorem c5_amended_witness :
    (parser.expectPeek token.ASSIGN
        (parser.stateOf [⟨token.IDENT, "x"⟩, ⟨token.INT, "5"⟩] [])).2.errors
      = [] ++ ["expected next token to be " ++ token.ASSIGN ++ ", got "
          ++ token.INT ++ " instead"] :=
  c5_amended.1 token.ASSIGN
    (parser.stateOf [⟨token.IDENT, "x"⟩, ⟨token.INT, "5"⟩] []) rfl

/-- C6 counterexample: the message recorded for a token with no prefix
handler is "no prefix parse function for = found", not the claimed
"no prefix parse function for token =". -/
theorem c6_counterexample :
    (parser.parseWith 100 "= 5;").map (fun pr => pr.2)
      = some ["no prefix parse function for = found"] ∧
    ("no prefix parse function for = found" : String)
      ≠ "no prefix parse function for token =" :=
  ⟨rfl, by decide⟩

/-- C6 amended: when the current token has no registered prefix handler,
`parseExpression` appends exactly the message
"no prefix parse function for X found" (X the token kind), returns the nil
expression, and statement parsing goes on: in "= 5;" the error is recorded,
the `=` yields an expression statement with a nil expression, and the
following `5` is still parsed as its own statement. -/
theorem c6_amended :
    (∀ (fuel prec : Nat) (p : parser.PState),
      parser.prefixParseFns p.curToken.type = none →
      parser.parseExpression (fuel + 1) prec p
        = some (ast.Expression.nilExpr,
            { p with errors := p.errors
                ++ ["no prefix parse function for " ++ p.curToken.type ++ " found"] })) ∧
    parser.parseWith 100 "= 5;"
      = some (⟨[some (.expressionStatement ⟨token.ASSIGN, "="⟩ .nilExpr),
                some (.expressionStatement ⟨token.INT, "5"⟩
                  (.integerLiteral ⟨token.INT, "5"⟩ 5))]⟩,
              ["no prefix parse function for = found"]) := by
  constructor
  · intro fuel prec p h
    simp only [parser.parseExpression, h]
    rfl
  · rfl

/-- C6 amended, witness: the general clause applied to a concrete state
whose current token is `=` (no prefix handler registered). -/
theorem c6_amended_witness :
    parser.parseExpression 1 parser.LOWEST (parser.stateOf [⟨token.ASSIGN, "="⟩] [])
      = some (ast.Expression.nilExpr,
          { parser.stateOf [⟨token.ASSIGN, "="⟩] [] with errors := []
              ++ ["no prefix parse function for "
                  ++ (parser.stateOf [⟨token.ASSIGN, "="⟩] []).curToken.type
                  ++ " found"] }) :=
  c6_amended.1 0 parser.LOWEST (parser.stateOf [⟨token.ASSIGN, "="⟩] []) rfl

/-- If no semicolon token is anywhere ahead (current, peek, or remaining
stream — the exhausted lexer only adds EOF tokens), the parser.go loop
`for !p.curTokenIs(token.SEMICOLON) { p.nextToken() }` never exits: the
fuelled model returns `none` for every fuel. -/
theorem skip_no_semi : ∀ (fuel : Nat) (p : parser.PState),
    p.curToken.type ≠ token.SEMICOLON →
    p.peekToken.type ≠ token.SEMICOLON →
    (∀ t ∈ p.rest, t.type ≠ token.SEMICOLON) →
    parser.skipToSemicolon fuel p = none := by
  intro fuel
  induction fuel with
  | zero => intro p _ _ _; rfl
  | succ f ih =>
    intro p h1 h2 h3
    simp only [parser.skipToSemicolon]
    rw [if_neg (by simp [parser.curTokenIs, h1])]
    apply ih
    · exact h2
    · cases hr : p.rest with
      | nil => simp [parser.nextToken, hr, lexer.eofTok, token.EOF, token.SEMICOLON]
      | cons a as =>
        simpa [parser.nextToken, hr] using h3 a (by simp [hr])
    · intro t ht
      cases hr : p.rest with
      | nil => simp [parser.nextToken, hr] at ht
      | cons a as =>
        refine h3 t ?_
        simp only [parser.nextToken, hr, List.tail_cons] at ht
        simp [hr, ht]

/-- C10: ParseProgram does NOT return on every finite input — on
"let x = 5" (final statement lacking its semicolon) the skip loop inside
`parseLetStatement` advances past the end of the token stream forever
(the lexer then yields only EOF, never SEMICOLON), so the fuelled model
returns `none` at every fuel. -/
theorem c10_let_without_semicolon_diverges :
    ∀ fuel, parser.parseWith fuel "let x = 5" = none := by
  intro fuel
  have hloop : parser.parseProgramLoop fuel (parser.newParser (lexer.lex "let x = 5")) [] = none := by
    match fuel with
    | 0 => rfl
    | 1 => rfl
    | 2 => rfl
    | f + 3 =>
      have hskip : parser.skipToSemicolon f
          ⟨⟨token.ASSIGN, "="⟩, ⟨token.INT, "5"⟩, [lexer.eofTok], []⟩ = none := by
        apply skip_no_semi <;> decide
      have hnp : parser.newParser (lexer.lex "let x = 5")
          = ⟨⟨token.LET, "let"⟩, ⟨token.IDENT, "x"⟩,
             [⟨token.ASSIGN, "="⟩, ⟨token.INT, "5"⟩, lexer.eofTok], []⟩ := rfl
      rw [hnp]
      show parser.parseProgramLoop ((f + 2) + 1) _ [] = none
      simp only [parser.parseProgramLoop]
      rw [if_neg (by decide)]
      have hlet : parser.parseLetStatement (f + 1)
          ⟨⟨token.LET, "let"⟩, ⟨token.IDENT, "x"⟩,
           [⟨token.ASSIGN, "="⟩, ⟨token.INT, "5"⟩, lexer.eofTok], []⟩ = none := by
        simp only [parser.parseLetStatement]
        simp [parser.expectPeek, parser.peekTokenIs, parser.nextToken, parser.peekError, hskip]
      have hstmt : parser.parseStatement (f + 2)
          ⟨⟨token.LET, "let"⟩, ⟨token.IDENT, "x"⟩,
           [⟨token.ASSIGN, "="⟩, ⟨token.INT, "5"⟩, lexer.eofTok], []⟩ = none := by
        show parser.parseStatement ((f + 1) + 1) _ = none
        simp only [parser.parseStatement]
        rw [if_pos (by decide), hlet]
      rw [hstmt]
  simp [parser.parseWith, parser.ParseProgram, hloop]

/-- A digit starts an INT token: the tokenizer takes the maximal digit run. -/
theorem lex_digit_step (c : Char) (tl : List Char) (h : lexer.isDigit c = true) :
    lexer.nextToken (c :: tl)
      = (⟨token.INT, ⟨c :: tl.takeWhile lexer.isDigit⟩⟩, tl.dropWhile lexer.isDigit) := by
  have hws : lexer.isWhitespace c = false := by
    simp [lexer.isDigit] at h; simp [lexer.isWhitespace]; omega
  have hlet : lexer.isLetter c = false := by
    simp [lexer.isDigit] at h; simp [lexer.isLetter]; omega
  have h1 : ¬(c = '=') := fun e => absurd (e ▸ h) (by decide)
  have h2 : ¬(c = '!') := fun e => absurd (e ▸ h) (by decide)
  have h3 : ¬(c = '+') := fun e => absurd (e ▸ h) (by decide)
  have h4 : ¬(c = '-') := fun e => absurd (e ▸ h) (by decide)
  have h5 : ¬(c = '*') := fun e => absurd (e ▸ h) (by decide)
  have h6 : ¬(c = '/') := fun e => absurd (e ▸ h) (by decide)
  have h7 : ¬(c = '<') := fun e => absurd (e ▸ h) (by decide)
  have h8 : ¬(c = '>') := fun e => absurd (e ▸ h) (by decide)
  have h9 : ¬(c = ',') := fun e => absurd (e ▸ h) (by decide)
  have h10 : ¬(c = ';') := fun e => absurd (e ▸ h) (by decide)
  have h11 : ¬(c = '(') := fun e => absurd (e ▸ h) (by decide)
  have h12 : ¬(c = ')') := fun e => absurd (e ▸ h) (by decide)
  have h13 : ¬(c = lexer.lbraceChar) := fun e => absurd (e ▸ h) (by decide)
  have h14 : ¬(c = lexer.rbraceChar) := fun e => absurd (e ▸ h) (by decide)
  simp [lexer.nextToken, List.dropWhile_cons, hws, hlet, h, h1, h2, h3, h4, h5, h6, h7,
    h8, h9, h10, h11, h12, h13, h14]

/-- With fuel left, tokenizing an empty input yields the EOF token. -/
theorem lexAllF_nil : ∀ n, lexer.lexAllF (n + 1) [] = [lexer.eofTok] := fun _ => rfl

/-- Tokenizing a pure digit string yields a single INT token plus EOF. -/
theorem lex_all_digits (c : Char) (cs : List Char) (hc : lexer.isDigit c = true)
    (hcs : ∀ x ∈ cs, lexer.isDigit x = true) :
    lexer.lex ⟨c :: cs⟩ = [⟨token.INT, ⟨c :: cs⟩⟩, lexer.eofTok] := by
  have htake : cs.takeWhile lexer.isDigit = cs := List.takeWhile_eq_self_iff.mpr hcs
  have hdrop : cs.dropWhile lexer.isDigit = [] := List.dropWhile_eq_nil_iff.mpr hcs
  show lexer.lexAllF ((c :: cs).length + 1) (c :: cs) = _
  show lexer.lexAllF ((cs.length + 1) + 1) (c :: cs) = _
  simp only [lexer.lexAllF, lex_digit_step c cs hc, htake, hdrop]
  rw [if_neg (by decide)]
  rfl

/-- `digitsValIn.go` in base 10 folds the decimal digits. -/
theorem digitsValIn_go_ten (l : List Char) (h : ∀ x ∈ l, lexer.isDigit x = true) :
    ∀ acc, parser.digitsValIn.go 10 l acc
      = some (l.foldl (fun a c => 10 * a + (c.toNat - 48)) acc) := by
  induction l with
  | nil => intro acc; rfl
  | cons x xs ih =>
    intro acc
    have hx : lexer.isDigit x = true := h x (by simp)
    have hdv : parser.digitVal x = some (x.toNat - 48) := by
      simp [lexer.isDigit] at hx
      simp [parser.digitVal]
      omega
    have hlt : x.toNat - 48 < 10 := by
      simp [lexer.isDigit] at hx; omega
    simp only [parser.digitsValIn.go, hdv, if_pos hlt, List.foldl_cons]
    exact ih (fun y hy => h y (by simp [hy])) _

/-- Go's base-0 `ParseInt` on a digit string with no leading zero (or the
single digit "0") is plain decimal, succeeding below `2^63`. -/
theorem parseInt0_64_decimal (c : Char) (cs : List Char) (hc : lexer.isDigit c = true)
    (hcs : ∀ x ∈ cs, lexer.isDigit x = true)
    (hlead : c = '0' → cs = [])
    (hrange : parser.decVal (c :: cs) < 2 ^ 63) :
    parser.parseInt0_64 ⟨c :: cs⟩ = some ((parser.decVal (c :: cs) : Int)) := by
  have hplus : ¬(c = '+') := fun e => absurd (e ▸ hc) (by decide)
  have hminus : ¬(c = '-') := fun e => absurd (e ▸ hc) (by decide)
  have hall : ∀ x ∈ c :: cs, lexer.isDigit x = true := by
    intro x hx
    rcases List.mem_cons.mp hx with rfl | hx
    · exact hc
    · exact hcs x hx
  have hle : parser.decVal (c :: cs) ≤ 2 ^ 63 - 1 := by omega
  cases cs with
  | nil =>
    simp only [parser.parseInt0_64, parser.decVal]
    simp only [if_neg hplus, if_neg hminus]
    simp only [parser.digitsValIn, digitsValIn_go_ten [c] hall 0]
    simp only [parser.decVal] at hle
    simp only [List.foldl_cons, List.foldl_nil, Nat.mul_zero, Nat.zero_add] at hle ⊢
    simp [hle]
    omega
  | cons c2 r =>
    have hzero : ¬(c = '0') := fun e => by
      have := hlead e; simp at this
    simp only [parser.parseInt0_64]
    simp only [if_neg hplus, if_neg hminus]
    simp only [if_neg hzero]
    simp only [parser.digitsValIn, digitsValIn_go_ten (c :: c2 :: r) hall 0]
    simp only [parser.decVal] at hle ⊢
    simp only [List.foldl_cons, List.foldl_nil, Nat.mul_zero, Nat.zero_add] at hle ⊢
    rw [if_neg (by simp), if_pos hle]

/-- Parsing a token stream holding a single INT token whose literal
`ParseInt`s to `v` yields one expression statement with that literal. -/
theorem parseProgram_single_int (s : String) (v : Int)
    (hpi : parser.parseInt0_64 s = some v) :
    parser.ParseProgram 10 (parser.newParser [⟨token.INT, s⟩, lexer.eofTok])
      = some (⟨[some (.expressionStatement ⟨token.INT, s⟩
               (.integerLiteral ⟨token.INT, s⟩ v))]⟩,
              ⟨lexer.eofTok, lexer.eofTok, [], []⟩) := by
  have hnp : parser.newParser [⟨token.INT, s⟩, lexer.eofTok]
      = ⟨⟨token.INT, s⟩, lexer.eofTok, [], []⟩ := rfl
  simp only [parser.ParseProgram, hnp]
  simp [parser.parseProgramLoop, parser.parseStatement, parser.parseExpressionStatement,
    parser.parseExpression, parser.prefixParseFns, parser.parseIntegerLiteral, hpi,
    parser.peekTokenIs, parser.nextToken, token.INT, token.EOF, token.LET, token.RETURN,
    token.IDENT, token.BANG, token.MINUS, token.SEMICOLON, lexer.eofTok]

/-- C2 counterexample: the source text "010" is a single integer literal
denoting ten, but because `parseIntegerLiteral` calls `ParseInt` with base
0, the leading zero selects octal and the pipeline evaluates it to the
Integer 8, not 10. -/
theorem c2_counterexample :
    evaluator.evalString 100 "010" = some (.integer 8) ∧
    object.Object.integer 8 ≠ object.Object.integer 10 :=
  ⟨rfl, by decide⟩

/-- C2 amended: for a single integer literal with no leading zero (a
nonzero-leading digit string, or the single digit "0") whose decimal value
is 64-bit-representable, evaluating the parsed program yields exactly that
Integer value. -/
theorem c2_amended (c : Char) (cs : List Char) (hc : lexer.isDigit c = true)
    (hcs : ∀ x ∈ cs, lexer.isDigit x = true)
    (hlead : c = '0' → cs = [])
    (hrange : parser.decVal (c :: cs) < 2 ^ 63) :
    evaluator.evalString 10 ⟨c :: cs⟩
      = some (.integer (parser.decVal (c :: cs))) := by
  have hlex := lex_all_digits c cs hc hcs
  have hpi := parseInt0_64_decimal c cs hc hcs hlead hrange
  have hparse := parseProgram_single_int ⟨c :: cs⟩ _ hpi
  simp only [evaluator.evalString, parser.parseWith, hlex, hparse]
  simp [evaluator.Eval, evaluator.evalStmts, evaluator.evalStmt, evaluator.evalExpr,
    evaluator.isError]

/-- C2 amended, witness: the amended claim applied to the literal "75". -/
theorem c2_amended_witness :
    evaluator.evalString 10 ⟨['7', '5']⟩
      = some (.integer (parser.decVal ['7', '5'])) :=
  c2_amended '7' ['5'] (by decide) (by decide) (by decide) (by decide)

/-- C8: the spec-modelled `Eval` takes a Program node together with an
Environment and returns a Value; a let statement binds the evaluated value
to its name in that Environment, so a later identifier reference in the
same program resolves to the bound value: `let name = n; name` evaluates to
Integer n with the binding recorded. -/
theorem c8_eval_let_binds (name : String) (n : Int) :
    evaluator.Eval
      ⟨[some (.letStatement ⟨token.LET, "let"⟩ (some ⟨⟨token.IDENT, name⟩, name⟩)
          (.integerLiteral ⟨token.INT, toString n⟩ n)),
        some (.expressionStatement ⟨token.IDENT, name⟩
          (.identifier ⟨⟨token.IDENT, name⟩, name⟩))]⟩
      (.root [])
    = (.integer n, .root [(name, .integer n)]) := by
  simp [evaluator.Eval, evaluator.evalStmts, evaluator.evalStmt, evaluator.evalExpr,
    evaluator.isError, evaluator.Environment.set, evaluator.Environment.get, List.lookup]

/-- `takeWhile`/`dropWhile` over an append whose first part wholly satisfies
the predicate and whose next element fails it. -/
theorem takeWhile_dropWhile_append_sat (p : Char → Bool) :
    ∀ (l1 : List Char) (b : Char) (l2 : List Char),
    (∀ x ∈ l1, p x = true) → p b = false →
    (l1 ++ b :: l2).takeWhile p = l1 ∧ (l1 ++ b :: l2).dropWhile p = b :: l2 := by
  intro l1
  induction l1 with
  | nil =>
    intro b l2 _ hb
    simp [List.takeWhile_cons, List.dropWhile_cons, hb]
  | cons a l ih =>
    intro b l2 hall hb
    have ha : p a = true := hall a (by simp)
    have hrest : ∀ x ∈ l, p x = true := fun x hx => hall x (by simp [hx])
    obtain ⟨ht, hd⟩ := ih b l2 hrest hb
    simp [List.takeWhile_cons, List.dropWhile_cons, ha, ht, hd]

/-- A letter starts an identifier/keyword token: the tokenizer takes the
maximal identifier-character run and consults the keyword table. -/
theorem lex_letter_step (c : Char) (tl : List Char) (h : lexer.isLetter c = true) :
    lexer.nextToken (c :: tl)
      = (⟨token.LookupIdent ⟨c :: tl.takeWhile lexer.isIdentChar⟩,
          ⟨c :: tl.takeWhile lexer.isIdentChar⟩⟩, tl.dropWhile lexer.isIdentChar) := by
  have hws : lexer.isWhitespace c = false := by
    simp [lexer.isLetter] at h; simp [lexer.isWhitespace]; omega
  have h1 : ¬(c = '=') := fun e => absurd (e ▸ h) (by decide)
  have h2 : ¬(c = '!') := fun e => absurd (e ▸ h) (by decide)
  have h3 : ¬(c = '+') := fun e => absurd (e ▸ h) (by decide)
  have h4 : ¬(c = '-') := fun e => absurd (e ▸ h) (by decide)
  have h5 : ¬(c = '*') := fun e => absurd (e ▸ h) (by decide)
  have h6 : ¬(c = '/') := fun e => absurd (e ▸ h) (by decide)
  have h7 : ¬(c = '<') := fun e => absurd (e ▸ h) (by decide)
  have h8 : ¬(c = '>') := fun e => absurd (e ▸ h) (by decide)
  have h9 : ¬(c = ',') := fun e => absurd (e ▸ h) (by decide)
  have h10 : ¬(c = ';') := fun e => absurd (e ▸ h) (by decide)
  have h11 : ¬(c = '(') := fun e => absurd (e ▸ h) (by decide)
  have h12 : ¬(c = ')') := fun e => absurd (e ▸ h) (by decide)
  have h13 : ¬(c = lexer.lbraceChar) := fun e => absurd (e ▸ h) (by decide)
  have h14 : ¬(c = lexer.rbraceChar) := fun e => absurd (e ▸ h) (by decide)
  simp [lexer.nextToken, List.dropWhile_cons, hws, h, h1, h2, h3, h4, h5, h6, h7,
    h8, h9, h10, h11, h12, h13, h14]

/-- Leading whitespace does not change the produced token. -/
theorem nextToken_cons_ws (c : Char) (X : List Char) (h : lexer.isWhitespace c = true) :
    lexer.nextToken (c :: X) = lexer.nextToken X := by
  simp only [lexer.nextToken, List.dropWhile_cons, h, if_true]

/-- A valid identifier followed by a space lexes to one token with the
keyword table consulted on the whole name. -/
theorem nextToken_ident_space (n : String) (R : List Char)
    (hv : lexer.validIdent n = true) :
    lexer.nextToken (n.data ++ (' ' :: R)) = (⟨token.LookupIdent n, n⟩, ' ' :: R) := by
  rcases hd : n.data with _ | ⟨c, cs⟩
  · simp [lexer.validIdent, hd] at hv
  · have hv' := hv
    simp only [lexer.validIdent, hd, Bool.and_eq_true] at hv'
    obtain ⟨hc, hcs⟩ := hv'
    have hmem : ∀ x ∈ cs, lexer.isIdentChar x = true := List.all_eq_true.mp hcs
    have hsp : lexer.isIdentChar ' ' = false := by decide
    obtain ⟨htake, hdrop⟩ := takeWhile_dropWhile_append_sat lexer.isIdentChar cs ' ' R hmem hsp
    show lexer.nextToken (c :: (cs ++ ' ' :: R)) = _
    rw [lex_letter_step c (cs ++ ' ' :: R) hc, htake, hdrop]
    rw [show (⟨c :: cs⟩ : String) = n from (congrArg String.mk hd.symm).trans rfl]

/-- One tokenizing step of `lexAllF` for a non-EOF token. -/
theorem lexAllF_step (X : Nat) (input : List Char) (t : token.Token) (rest : List Char)
    (hnt : lexer.nextToken input = (t, rest)) (ht : t.type ≠ token.EOF) :
    lexer.lexAllF (X + 1) input = t :: lexer.lexAllF X rest := by
  simp only [lexer.lexAllF, hnt]
  rw [if_neg ht]

/-- Tokenizing the rendering of a well-formed let statement consumes four
tokens. -/
theorem c4_lex_let (fl : Nat) (n : String) (tail : List Char)
    (hv : lexer.validIdent n = true) (hkw : token.LookupIdent n = token.IDENT) :
    lexer.lexAllF ((((fl + 1) + 1) + 1) + 1)
        ('l' :: 'e' :: 't' :: ' ' :: (n.data ++ (' ' :: '=' :: ' ' :: ';' :: tail)))
      = ⟨token.LET, "let"⟩ :: ⟨token.IDENT, n⟩ :: ⟨token.ASSIGN, "="⟩
          :: ⟨token.SEMICOLON, ";"⟩ :: lexer.lexAllF fl tail := by
  have s1 : lexer.nextToken
      ('l' :: 'e' :: 't' :: ' ' :: (n.data ++ (' ' :: '=' :: ' ' :: ';' :: tail)))
      = (⟨token.LET, "let"⟩, ' ' :: (n.data ++ (' ' :: '=' :: ' ' :: ';' :: tail))) := rfl
  have s2 : lexer.nextToken (' ' :: (n.data ++ (' ' :: '=' :: ' ' :: ';' :: tail)))
      = (⟨token.IDENT, n⟩, ' ' :: '=' :: ' ' :: ';' :: tail) := by
    rw [nextToken_cons_ws ' ' _ (by decide)]
    rw [nextToken_ident_space n ('=' :: ' ' :: ';' :: tail) hv]
    rw [hkw]
  have s3 : lexer.nextToken (' ' :: '=' :: ' ' :: ';' :: tail)
      = (⟨token.ASSIGN, "="⟩, ' ' :: ';' :: tail) := rfl
  have s4 : lexer.nextToken (' ' :: ';' :: tail) = (⟨token.SEMICOLON, ";"⟩, tail) := rfl
  rw [lexAllF_step _ _ _ _ s1 (by decide)]
  rw [lexAllF_step _ _ _ _ s2 (by simp [token.IDENT, token.EOF])]
  rw [lexAllF_step _ _ _ _ s3 (by decide)]
  rw [lexAllF_step _ _ _ _ s4 (by decide)]

/-- Tokenizing the rendering of a return statement consumes two tokens. -/
theorem c4_lex_ret (fl : Nat) (tail : List Char) :
    lexer.lexAllF ((fl + 1) + 1)
        ('r' :: 'e' :: 't' :: 'u' :: 'r' :: 'n' :: ' ' :: ';' :: tail)
      = ⟨token.RETURN, "return"⟩ :: ⟨token.SEMICOLON, ";"⟩ :: lexer.lexAllF fl tail := by
  have s1 : lexer.nextToken ('r' :: 'e' :: 't' :: 'u' :: 'r' :: 'n' :: ' ' :: ';' :: tail)
      = (⟨token.RETURN, "return"⟩, ' ' :: ';' :: tail) := rfl
  have s2 : lexer.nextToken (' ' :: ';' :: tail) = (⟨token.SEMICOLON, ";"⟩, tail) := rfl
  rw [lexAllF_step _ _ _ _ s1 (by decide)]
  rw [lexAllF_step _ _ _ _ s2 (by decide)]

/-- `parseStatement` on the token shape of a well-formed let statement:
four tokens are consumed, the statement is rebuilt with absent value. -/
theorem c4_stmt_let (Y : Nat) (n : String) (T : List token.Token) (errs : List String) :
    parser.parseStatement (Y + 4)
      (parser.stateOf ([⟨token.LET, "let"⟩, ⟨token.IDENT, n⟩, ⟨token.ASSIGN, "="⟩,
        ⟨token.SEMICOLON, ";"⟩] ++ T) errs)
      = some (some (some (ast.Statement.letStatement ⟨token.LET, "let"⟩
          (some ⟨⟨token.IDENT, n⟩, n⟩) ast.Expression.nilExpr)),
        ⟨⟨token.SEMICOLON, ";"⟩, T.headD lexer.eofTok, T.tail, errs⟩) := by
  have hskip : parser.skipToSemicolon (Y + 2)
      ⟨⟨token.ASSIGN, "="⟩, ⟨token.SEMICOLON, ";"⟩, T, errs⟩
      = some ⟨⟨token.SEMICOLON, ";"⟩, T.headD lexer.eofTok, T.tail, errs⟩ :=
    (rfl :
      parser.skipToSemicolon ((Y + 1) + 1)
        ⟨⟨token.ASSIGN, "="⟩, ⟨token.SEMICOLON, ";"⟩, T, errs⟩
      = parser.skipToSemicolon (Y + 1)
        ⟨⟨token.SEMICOLON, ";"⟩, T.headD lexer.eofTok, T.tail, errs⟩).trans rfl
  have hlet : parser.parseLetStatement (Y + 3)
      (parser.stateOf ([⟨token.LET, "let"⟩, ⟨token.IDENT, n⟩, ⟨token.ASSIGN, "="⟩,
        ⟨token.SEMICOLON, ";"⟩] ++ T) errs)
      = some (some (ast.Statement.letStatement ⟨token.LET, "let"⟩
          (some ⟨⟨token.IDENT, n⟩, n⟩) ast.Expression.nilExpr),
        ⟨⟨token.SEMICOLON, ";"⟩, T.headD lexer.eofTok, T.tail, errs⟩) := by
    have e : parser.parseLetStatement ((Y + 2) + 1)
        (parser.stateOf ([⟨token.LET, "let"⟩, ⟨token.IDENT, n⟩, ⟨token.ASSIGN, "="⟩,
          ⟨token.SEMICOLON, ";"⟩] ++ T) errs)
        = (match parser.skipToSemicolon (Y + 2)
              ⟨⟨token.ASSIGN, "="⟩, ⟨token.SEMICOLON, ";"⟩, T, errs⟩ with
           | none => none
           | some p3 => some (some (ast.Statement.letStatement ⟨token.LET, "let"⟩
               (some ⟨⟨token.IDENT, n⟩, n⟩) ast.Expression.nilExpr), p3)) := rfl
    rw [show Y + 3 = (Y + 2) + 1 from rfl, e, hskip]
  have e2 : parser.parseStatement ((Y + 3) + 1)
      (parser.stateOf ([⟨token.LET, "let"⟩, ⟨token.IDENT, n⟩, ⟨token.ASSIGN, "="⟩,
        ⟨token.SEMICOLON, ";"⟩] ++ T) errs)
      = (match parser.parseLetStatement (Y + 3)
            (parser.stateOf ([⟨token.LET, "let"⟩, ⟨token.IDENT, n⟩, ⟨token.ASSIGN, "="⟩,
              ⟨token.SEMICOLON, ";"⟩] ++ T) errs) with
         | none => none
         | some (stmt, p') => some (some stmt, p')) := rfl
  rw [show Y + 4 = (Y + 3) + 1 from rfl, e2, hlet]

/-- `parseStatement` on the token shape of a return statement. -/
theorem c4_stmt_ret (Y : Nat) (T : List token.Token) (errs : List String) :
    parser.parseStatement (Y + 4)
      (parser.stateOf ([⟨token.RETURN, "return"⟩, ⟨token.SEMICOLON, ";"⟩] ++ T) errs)
      = some (some (some (ast.Statement.returnStatement ⟨token.RETURN, "return"⟩
          ast.Expression.nilExpr)),
        ⟨⟨token.SEMICOLON, ";"⟩, T.headD lexer.eofTok, T.tail, errs⟩) := by
  have hskip : parser.skipToSemicolon (Y + 2)
      ⟨⟨token.SEMICOLON, ";"⟩, T.headD lexer.eofTok, T.tail, errs⟩
      = some ⟨⟨token.SEMICOLON, ";"⟩, T.headD lexer.eofTok, T.tail, errs⟩ :=
    (rfl : parser.skipToSemicolon ((Y + 1) + 1)
        ⟨⟨token.SEMICOLON, ";"⟩, T.headD lexer.eofTok, T.tail, errs⟩ = _)
  have hret : parser.parseReturnStatement (Y + 3)
      (parser.stateOf ([⟨token.RETURN, "return"⟩, ⟨token.SEMICOLON, ";"⟩] ++ T) errs)
      = some (some (ast.Statement.returnStatement ⟨token.RETURN, "return"⟩
          ast.Expression.nilExpr),
        ⟨⟨token.SEMICOLON, ";"⟩, T.headD lexer.eofTok, T.tail, errs⟩) := by
    have e : parser.parseReturnStatement ((Y + 2) + 1)
        (parser.stateOf ([⟨token.RETURN, "return"⟩, ⟨token.SEMICOLON, ";"⟩] ++ T) errs)
        = (match parser.skipToSemicolon (Y + 2)
              ⟨⟨token.SEMICOLON, ";"⟩, T.headD lexer.eofTok, T.tail, errs⟩ with
           | none => none
           | some p3 => some (some (ast.Statement.returnStatement ⟨token.RETURN, "return"⟩
               ast.Expression.nilExpr), p3)) := rfl
    rw [show Y + 3 = (Y + 2) + 1 from rfl, e, hskip]
  have e2 : parser.parseStatement ((Y + 3) + 1)
      (parser.stateOf ([⟨token.RETURN, "return"⟩, ⟨token.SEMICOLON, ";"⟩] ++ T) errs)
      = (match parser.parseReturnStatement (Y + 3)
            (parser.stateOf ([⟨token.RETURN, "return"⟩, ⟨token.SEMICOLON, ";"⟩] ++ T) errs) with
         | none => none
         | some (stmt, p') => some (some stmt, p')) := rfl
  rw [show Y + 4 = (Y + 3) + 1 from rfl, e2, hret]

/-- Running ParseProgram's loop over the token stream of a sequence of
well-formed let/return statements reconstructs exactly those statements,
with no errors added (five fuel units per statement plus one suffice, with
arbitrary slack). -/
theorem c4_parse_loop : ∀ (stmts : List (Option ast.Statement)),
    (∀ os ∈ stmts, parser.wfLetRet os = true) →
    ∀ (f : Nat) (errs : List String) (acc : List (Option ast.Statement)),
    parser.parseProgramLoop (f + 5 * stmts.length + 1)
        (parser.stateOf (parser.progTokens stmts ++ [lexer.eofTok]) errs) acc
      = some (acc ++ stmts, ⟨lexer.eofTok, lexer.eofTok, [], errs⟩) := by
  intro stmts
  induction stmts with
  | nil =>
    intro _ f errs acc
    have e : parser.parseProgramLoop ((f + 5 * 0) + 1)
        (parser.stateOf ([] ++ [lexer.eofTok]) errs) acc
        = some (acc, parser.stateOf [lexer.eofTok] errs) := rfl
    simpa [parser.stateOf] using e
  | cons os rest ih =>
    intro hwf f errs acc
    have hos : parser.wfLetRet os = true := hwf os (by simp)
    have hwfr : ∀ x ∈ rest, parser.wfLetRet x = true := fun x hx => hwf x (by simp [hx])
    rcases os with _ | stmt
    · simp [parser.wfLetRet] at hos
    rcases stmt with ⟨tok, name, value⟩ | ⟨tok, value⟩ | ⟨tok, e⟩
    · rcases name with _ | id
      · simp [parser.wfLetRet] at hos
      cases value with
      | nilExpr =>
        obtain ⟨idtok, idval⟩ := id
        simp only [parser.wfLetRet, Bool.and_eq_true, beq_iff_eq] at hos
        obtain ⟨⟨⟨htok, hidtok⟩, hvalid⟩, hkw⟩ := hos
        subst htok
        subst hidtok
        show parser.parseProgramLoop (((f + 5 * rest.length + 1) + 4) + 1)
          (parser.stateOf ([⟨token.LET, "let"⟩, ⟨token.IDENT, idval⟩, ⟨token.ASSIGN, "="⟩,
            ⟨token.SEMICOLON, ";"⟩] ++ (parser.progTokens rest ++ [lexer.eofTok])) errs) acc = _
        have e1 : parser.parseProgramLoop (((f + 5 * rest.length + 1) + 4) + 1)
            (parser.stateOf ([⟨token.LET, "let"⟩, ⟨token.IDENT, idval⟩, ⟨token.ASSIGN, "="⟩,
              ⟨token.SEMICOLON, ";"⟩] ++ (parser.progTokens rest ++ [lexer.eofTok])) errs) acc
            = (match parser.parseStatement ((f + 5 * rest.length + 1) + 4)
                  (parser.stateOf ([⟨token.LET, "let"⟩, ⟨token.IDENT, idval⟩, ⟨token.ASSIGN, "="⟩,
                    ⟨token.SEMICOLON, ";"⟩] ++ (parser.progTokens rest ++ [lexer.eofTok])) errs) with
               | none => none
               | some (iface, p') =>
                 parser.parseProgramLoop ((f + 5 * rest.length + 1) + 4) (parser.nextToken p')
                   (match iface with
                    | none => acc
                    | some inner => acc ++ [inner])) := rfl
        rw [e1, c4_stmt_let (f + 5 * rest.length + 1) idval
          (parser.progTokens rest ++ [lexer.eofTok]) errs]
        show parser.parseProgramLoop ((f + 5 * rest.length + 1) + 4)
          (parser.stateOf (parser.progTokens rest ++ [lexer.eofTok]) errs)
          (acc ++ [some (ast.Statement.letStatement ⟨token.LET, "let"⟩
            (some ⟨⟨token.IDENT, idval⟩, idval⟩) ast.Expression.nilExpr)]) = _
        have hih := ih hwfr (f + 4) errs
          (acc ++ [some (ast.Statement.letStatement ⟨token.LET, "let"⟩
            (some ⟨⟨token.IDENT, idval⟩, idval⟩) ast.Expression.nilExpr)])
        rw [show (f + 4) + 5 * rest.length + 1 = ((f + 5 * rest.length + 1) + 4)
          from by omega] at hih
        simpa using hih
      | identifier id2 => simp [parser.wfLetRet] at hos
      | integerLiteral t v => simp [parser.wfLetRet] at hos
      | boolean t b => simp [parser.wfLetRet] at hos
      | prefixExpression t o r => simp [parser.wfLetRet] at hos
      | infixExpression t l o r => simp [parser.wfLetRet] at hos
    · cases value with
      | nilExpr =>
        simp only [parser.wfLetRet, beq_iff_eq] at hos
        subst hos
        show parser.parseProgramLoop (((f + 5 * rest.length + 1) + 4) + 1)
          (parser.stateOf ([⟨token.RETURN, "return"⟩, ⟨token.SEMICOLON, ";"⟩]
            ++ (parser.progTokens rest ++ [lexer.eofTok])) errs) acc = _
        have e1 : parser.parseProgramLoop (((f + 5 * rest.length + 1) + 4) + 1)
            (parser.stateOf ([⟨token.RETURN, "return"⟩, ⟨token.SEMICOLON, ";"⟩]
              ++ (parser.progTokens rest ++ [lexer.eofTok])) errs) acc
            = (match parser.parseStatement ((f + 5 * rest.length + 1) + 4)
                  (parser.stateOf ([⟨token.RETURN, "return"⟩, ⟨token.SEMICOLON, ";"⟩]
                    ++ (parser.progTokens rest ++ [lexer.eofTok])) errs) with
               | none => none
               | some (iface, p') =>
                 parser.parseProgramLoop ((f + 5 * rest.length + 1) + 4) (parser.nextToken p')
                   (match iface with
                    | none => acc
                    | some inner => acc ++ [inner])) := rfl
        rw [e1, c4_stmt_ret (f + 5 * rest.length + 1)
          (parser.progTokens rest ++ [lexer.eofTok]) errs]
        show parser.parseProgramLoop ((f + 5 * rest.length + 1) + 4)
          (parser.stateOf (parser.progTokens rest ++ [lexer.eofTok]) errs)
          (acc ++ [some (ast.Statement.returnStatement ⟨token.RETURN, "return"⟩
            ast.Expression.nilExpr)]) = _
        have hih := ih hwfr (f + 4) errs
          (acc ++ [some (ast.Statement.returnStatement ⟨token.RETURN, "return"⟩
            ast.Expression.nilExpr)])
        rw [show (f + 4) + 5 * rest.length + 1 = ((f + 5 * rest.length + 1) + 4)
          from by omega] at hih
        simpa using hih
      | identifier id2 => simp [parser.wfLetRet] at hos
      | integerLiteral t v => simp [parser.wfLetRet] at hos
      | boolean t b => simp [parser.wfLetRet] at hos
      | prefixExpression t o r => simp [parser.wfLetRet] at hos
      | infixExpression t l o r => simp [parser.wfLetRet] at hos
    · simp [parser.wfLetRet] at hos

/-- The rendering of a sequence of well-formed let/return statements exists
(no nil dereference), is at least as long as its token sequence, and
tokenizes to exactly that token sequence. -/
theorem c4_render_lex : ∀ (stmts : List (Option ast.Statement)),
    (∀ os ∈ stmts, parser.wfLetRet os = true) →
    ∃ chars : List Char,
      ast.programString ⟨stmts⟩ = some ⟨chars⟩ ∧
      (parser.progTokens stmts).length ≤ chars.length ∧
      ∀ fl, lexer.lexAllF (fl + (parser.progTokens stmts).length + 1) chars
        = parser.progTokens stmts ++ [lexer.eofTok] := by
  intro stmts
  induction stmts with
  | nil =>
    intro _
    refine ⟨[], rfl, by simp [parser.progTokens], ?_⟩
    intro fl
    show lexer.lexAllF ((fl + 0) + 1) [] = _
    rw [lexAllF_nil (fl + 0)]
    rfl
  | cons os rest ih =>
    intro hwf
    have hos : parser.wfLetRet os = true := hwf os (by simp)
    have hwfr : ∀ x ∈ rest, parser.wfLetRet x = true := fun x hx => hwf x (by simp [hx])
    obtain ⟨chars', hps', hlen', hlex'⟩ := ih hwfr
    rcases os with _ | stmt
    · simp [parser.wfLetRet] at hos
    rcases stmt with ⟨tok, name, value⟩ | ⟨tok, value⟩ | ⟨tok, e⟩
    · rcases name with _ | id
      · simp [parser.wfLetRet] at hos
      cases value with
      | nilExpr =>
        obtain ⟨idtok, idval⟩ := id
        simp only [parser.wfLetRet, Bool.and_eq_true, beq_iff_eq] at hos
        obtain ⟨⟨⟨htok, hidtok⟩, hvalid⟩, hkw⟩ := hos
        subst htok
        subst hidtok
        refine ⟨'l' :: 'e' :: 't' :: ' '
            :: (idval.data ++ (' ' :: '=' :: ' ' :: ';' :: chars')), ?_, ?_, ?_⟩
        · have hps : ast.programString ⟨(some (ast.Statement.letStatement ⟨token.LET, "let"⟩
              (some ⟨⟨token.IDENT, idval⟩, idval⟩) ast.Expression.nilExpr)) :: rest⟩
              = (match (some ("let" ++ " " ++ idval ++ " = " ++ ";") : Option String),
                   ast.programString ⟨rest⟩ with
                 | some s, some t => some (s ++ t)
                 | _, _ => none) := rfl
          rw [hps, hps']
          show some (("let" ++ " " ++ idval ++ " = " ++ ";") ++ (⟨chars'⟩ : String)) = _
          refine congrArg some (String.ext ?_)
          simp only [String.data_append]
          simp [List.append_assoc]
        · simp only [parser.progTokens, parser.stmtTokens]
          simp only [List.length_append, List.length_cons, List.length_nil]
          omega
        · intro fl
          show lexer.lexAllF
              (fl + ((parser.progTokens rest).length + 1 + 1 + 1 + 1) + 1) _ = _
          show lexer.lexAllF
              (((((fl + (parser.progTokens rest).length + 1) + 1) + 1) + 1) + 1) _ = _
          rw [c4_lex_let (fl + (parser.progTokens rest).length + 1) idval chars' hvalid hkw]
          rw [hlex' fl]
          rfl
      | identifier id2 => simp [parser.wfLetRet] at hos
      | integerLiteral t v => simp [parser.wfLetRet] at hos
      | boolean t b => simp [parser.wfLetRet] at hos
      | prefixExpression t o r => simp [parser.wfLetRet] at hos
      | infixExpression t l o r => simp [parser.wfLetRet] at hos
    · cases value with
      | nilExpr =>
        simp only [parser.wfLetRet, beq_iff_eq] at hos
        subst hos
        refine ⟨'r' :: 'e' :: 't' :: 'u' :: 'r' :: 'n' :: ' ' :: ';' :: chars', ?_, ?_, ?_⟩
        · have hps : ast.programString ⟨(some (ast.Statement.returnStatement
              ⟨token.RETURN, "return"⟩ ast.Expression.nilExpr)) :: rest⟩
              = (match (some ("return" ++ " " ++ ";") : Option String),
                   ast.programString ⟨rest⟩ with
                 | some s, some t => some (s ++ t)
                 | _, _ => none) := rfl
          rw [hps, hps']
          show some (("return" ++ " " ++ ";") ++ (⟨chars'⟩ : String)) = _
          refine congrArg some (String.ext ?_)
          simp only [String.data_append]
          simp [List.append_assoc]
        · simp only [parser.progTokens, parser.stmtTokens]
          simp only [List.length_append, List.length_cons, List.length_nil]
          omega
        · intro fl
          show lexer.lexAllF
              (fl + ((parser.progTokens rest).length + 1 + 1) + 1) _ = _
          show lexer.lexAllF
              (((fl + (parser.progTokens rest).length + 1) + 1) + 1) _ = _
          rw [c4_lex_ret (fl + (parser.progTokens rest).length + 1) chars']
          rw [hlex' fl]
          rfl
      | identifier id2 => simp [parser.wfLetRet] at hos
      | integerLiteral t v => simp [parser.wfLetRet] at hos
      | boolean t b => simp [parser.wfLetRet] at hos
      | prefixExpression t o r => simp [parser.wfLetRet] at hos
      | infixExpression t l o r => simp [parser.wfLetRet] at hos
    · simp [parser.wfLetRet] at hos

/-- C4 counterexample: "x let y = 5;" parses with an empty error list and
renders "xlet y = ;", but re-parsing that rendering yields an AST rendering
"xlety" — not character-for-character identical (Program.String
concatenates statements without separators, so the identifier merges with
the `let` keyword on re-lexing). -/
theorem c4_counterexample :
    (parser.parseWith 100 "x let y = 5;").map (fun pr => pr.2) = some [] ∧
    (parser.parseWith 100 "x let y = 5;").bind (fun pr => ast.programString pr.1)
      = some "xlet y = ;" ∧
    (parser.parseWith 100 "xlet y = ;").bind (fun pr => ast.programString pr.1)
      = some "xlety" ∧
    ("xlety" : String) ≠ "xlet y = ;" :=
  ⟨rfl, rfl, rfl, by decide⟩

/-- C4 amended: for a Program consisting solely of parser-shaped let and
return statements, the String() rendering exists and re-parsing it (with
sufficient fuel) reconstructs the very same Program with no errors — in
particular the re-parse renders identically. -/
theorem c4_amended (prog : ast.Program)
    (hwf : prog.statements.all parser.wfLetRet = true) :
    ∃ s : String, ast.programString prog = some s ∧
      ∀ fuel, 5 * prog.statements.length + 1 ≤ fuel →
        parser.parseWith fuel s = some (prog, []) := by
  obtain ⟨stmts⟩ := prog
  have hwf' : ∀ os ∈ stmts, parser.wfLetRet os = true := List.all_eq_true.mp hwf
  obtain ⟨chars, hps, hlen, hlex⟩ := c4_render_lex stmts hwf'
  refine ⟨⟨chars⟩, hps, ?_⟩
  intro fuel hfuel
  have hlex2 : lexer.lex ⟨chars⟩ = parser.progTokens stmts ++ [lexer.eofTok] := by
    show lexer.lexAllF (chars.length + 1) chars = _
    rw [show chars.length + 1
        = (chars.length - (parser.progTokens stmts).length)
          + (parser.progTokens stmts).length + 1 from by omega]
    exact hlex _
  have hloop := c4_parse_loop stmts hwf' (fuel - (5 * stmts.length + 1)) [] []
  rw [show (fuel - (5 * stmts.length + 1)) + 5 * stmts.length + 1 = fuel from by
    simp only [ast.Program.statements] at hfuel
    omega] at hloop
  have hnp : parser.newParser (lexer.lex ⟨chars⟩)
      = parser.stateOf (parser.progTokens stmts ++ [lexer.eofTok]) [] := by
    rw [hlex2]
    rfl
  simp only [parser.parseWith, parser.ParseProgram, hnp, hloop]
  simp

/-- C4 amended, witness: a two-statement let/return program round-trips
through rendering and re-parsing at fuel 100. -/
theorem c4_amended_witness :
    ∃ s : String,
      ast.programString ⟨[some (.letStatement ⟨token.LET, "let"⟩
          (some ⟨⟨token.IDENT, "x"⟩, "x"⟩) .nilExpr),
        some (.returnStatement ⟨token.RETURN, "return"⟩ .nilExpr)]⟩ = some s ∧
      parser.parseWith 100 s
        = some (⟨[some (.letStatement ⟨token.LET, "let"⟩
            (some ⟨⟨token.IDENT, "x"⟩, "x"⟩) .nilExpr),
          some (.returnStatement ⟨token.RETURN, "return"⟩ .nilExpr)]⟩, []) := by
  obtain ⟨s, hs, h⟩ := c4_amended
    ⟨[some (.letStatement ⟨token.LET, "let"⟩ (some ⟨⟨token.IDENT, "x"⟩, "x"⟩) .nilExpr),
      some (.returnStatement ⟨token.RETURN, "return"⟩ .nilExpr)]⟩ (by decide)
  exact ⟨s, hs, h 100 (by decide)⟩
